import Mathlib

/-!
Shallow embedding of the blog content pipeline of this repository
(`src/data.rs`, `src/templates/index.rs`): directory enumeration, front
matter extraction, markdown rendering configuration, image resolution,
post assembly, and the date-sorted index collection.

External effects and external libraries are modelled as explicit parameters:

* the filesystem is a function from post identifier to the optional contents
  of the file at content/blog/<id>/index.md (`none`: the file cannot be
  opened or read);
* the directory listing of content/blog is an `Option (List DirEntry)`
  (`none`: the root cannot be listed or one of the entry reads failed);
* `serde_yaml::from_str::<FrontMatter>` is a parameter `yp` of type
  `String → Option FrontMatter`;
* `markdown::to_html_with_options` is a parameter `render` that receives the
  option record actually built at the call site.

Rust panics (`expect`, `unwrap`, the explicit panic in `get_front_matter`)
abort the whole build; they are modelled as `Except.error` values of `Err`.
The chrono `DateTime<FixedOffset>` type is modelled as `Int`, the timestamp
of the instant it denotes: chrono compares and orders `DateTime` values by
their instant, which is the only use the embedded code makes of dates.
-/

deriving instance DecidableEq for Except

/-- Build-aborting failures of the pipeline.  Each constructor corresponds to
one panic site in the source. -/
inductive Err where
  | contentRootUnreadable
  | entryMetadataUnavailable
  | invalidUnicodeName
  | contentFileUnreadable
  | frontMatterMissing
  | frontMatterMalformed
  | renderFailure
deriving DecidableEq

/-- `FrontMatter` from `src/data.rs`: the decoded YAML metadata block. -/
structure FrontMatter where
  title : String
  date : Int
  description : Option String
  image : Option String
deriving DecidableEq

/-- `Post` from `src/data.rs`: one assembled blog entry. -/
structure Post where
  title : String
  date : Int
  description : Option String
  html : String
  path : String
  image : Option String
deriving DecidableEq

/-- One entry of the content/blog listing, as `std::fs::DirEntry` exposes it
to `get_blog_directories`: `name` is `none` when the OS file name is not
valid Unicode (so `into_string()` would fail), `fileType` is `none` when
`file_type()` fails, and otherwise carries `is_dir()`. -/
structure DirEntry where
  name : Option String
  fileType : Option Bool
deriving DecidableEq

/-- `markdown::Constructs`; only the field the source sets is modelled, the
rest stays at the library default (`..Default::default()`), which has the
frontmatter construct disabled. -/
structure MdConstructs where
  frontmatter : Bool := false
deriving DecidableEq

/-- `markdown::ParseOptions` restricted to the field the source sets. -/
structure MdParseOptions where
  constructs : MdConstructs := {}
deriving DecidableEq

/-- `markdown::CompileOptions` restricted to the field the source sets; the
library default has dangerous html disabled. -/
structure MdCompileOptions where
  allow_dangerous_html : Bool := false
deriving DecidableEq

/-- `markdown::Options` as passed to `to_html_with_options`. -/
structure MdOptions where
  parse : MdParseOptions := {}
  compile : MdCompileOptions := {}
deriving DecidableEq

/-- The option record built inline in `get_post_for_path`: frontmatter
construct enabled, dangerous html allowed, everything else defaulted. -/
def usedMarkdownOptions : MdOptions :=
  { parse := { constructs := { frontmatter := true } },
    compile := { allow_dangerous_html := true } }

/-- Rust `str::split_once` on character lists: split at the first occurrence
of `sep`, returning the parts strictly before and strictly after it. -/
def splitOnceList (sep : List Char) : List Char → Option (List Char × List Char)
  | [] => if sep.isPrefixOf ([] : List Char) then some ([], []) else none
  | c :: rest =>
    if sep.isPrefixOf (c :: rest) then some ([], (c :: rest).drop sep.length)
    else (splitOnceList sep rest).map (fun pr => (c :: pr.1, pr.2))

/-- Rust `str::split_once` on strings. -/
def splitOnce (s sep : String) : Option (String × String) :=
  (splitOnceList sep.toList s.toList).map (fun pr => (String.mk pr.1, String.mk pr.2))

/-- `get_front_matter` from `src/data.rs`.  The source pattern-matches
`contents.split_once("---")` against `Some(("", rest))`, splits `rest` once
more on three hyphens, and feeds the enclosed text to `serde_yaml`; every
other path reaches the `front matter missing` panic, and a failing YAML
decode is the `cannot parse front matter` panic. -/
def getFrontMatter (yp : String → Option FrontMatter) (contents : String) :
    Except Err FrontMatter :=
  match splitOnce contents "---" with
  | some (pre, rest) =>
    if pre = "" then
      match splitOnce rest "---" with
      | some (front_matter_str, _body_str) =>
        match yp front_matter_str with
        | some fm => Except.ok fm
        | none => Except.error Err.frontMatterMalformed
      | none => Except.error Err.frontMatterMissing
    else Except.error Err.frontMatterMissing
  | none => Except.error Err.frontMatterMissing

/-- The characters of the literal part of the regex pattern used in
`get_post_for_path` to sniff an image out of the rendered html. -/
def srcPat : List Char := ['s', 'r', 'c', '=', '"']

/-- One attempted match of the regex pattern (src, equals sign, quote, one or
more non-quote characters, quote) anchored at the head of `l`, returning the
captured group.  The quoted value must be non-empty and the closing quote
must exist, exactly as the regex requires. -/
def matchSrcAt (l : List Char) : Option (List Char) :=
  if srcPat.isPrefixOf l then
    let v := (l.drop 5).takeWhile (fun c => c != '"')
    if v.length ≠ 0 ∧ v.length < (l.drop 5).length then some v else none
  else none

/-- Leftmost-match regex search: try the pattern at every position from the
left and return the first capture, as `Regex::captures` does. -/
def findFirstSrcAux : List Char → Option (List Char)
  | [] => none
  | c :: rest =>
    match matchSrcAt (c :: rest) with
    | some v => some v
    | none => findFirstSrcAux rest

/-- The image-sniffing regex search of `get_post_for_path` on strings. -/
def findFirstSrc (html : String) : Option String :=
  (findFirstSrcAux html.toList).map (fun v => String.mk v)

/-- The image resolution step of `get_post_for_path`:
`front_matter.image.or_else(|| re.captures(&html).map(|img| img[1]...))`. -/
def resolveImage (fmImage : Option String) (html : String) : Option String :=
  fmImage.or (findFirstSrc html)

/-- `get_post_for_path` from `src/data.rs`.  `fs` maps a post identifier to
the contents of its index.md when that file can be opened and read;
`render` is `markdown::to_html_with_options` (returning `none` on a render
error); `yp` is the YAML decoder.  The record is built with `path` set to
the identifier and the fields of the decoded front matter. -/
def getPostForPath (yp : String → Option FrontMatter)
    (render : String → MdOptions → Option String)
    (fs : String → Option String) (path : String) : Except Err Post :=
  match fs path with
  | none => Except.error Err.contentFileUnreadable
  | some contents =>
    match getFrontMatter yp contents with
    | Except.error e => Except.error e
    | Except.ok front_matter =>
      match render contents usedMarkdownOptions with
      | none => Except.error Err.renderFailure
      | some html =>
        Except.ok
          { path := path
            title := front_matter.title
            date := front_matter.date
            description := front_matter.description
            html := html
            image := resolveImage front_matter.image html }

/-- The body of the `filter_map` in `get_blog_directories`, folded over the
listing left to right: `file_type()` is unwrapped for every entry, and for
entries that are directories the file name is converted to a `String` and
unwrapped; other entries are dropped. -/
def entriesToNames : List DirEntry → Except Err (List String)
  | [] => Except.ok []
  | e :: rest =>
    match e.fileType with
    | none => Except.error Err.entryMetadataUnavailable
    | some isDir =>
      if isDir then
        match e.name with
        | none => Except.error Err.invalidUnicodeName
        | some n =>
          match entriesToNames rest with
          | Except.error err => Except.error err
          | Except.ok ns => Except.ok (n :: ns)
      else entriesToNames rest

/-- `get_blog_directories` from `src/data.rs`; the input is `none` when the
content root cannot be listed or one of the entry reads fails. -/
def getBlogDirectories (listing : Option (List DirEntry)) :
    Except Err (List String) :=
  match listing with
  | none => Except.error Err.contentRootUnreadable
  | some entries => entriesToNames entries

/-- Stable insertion of a post into a list ascending by date: the new post
goes in front of the first element whose date is at least its own. -/
def insertPost (x : Post) : List Post → List Post
  | [] => [x]
  | y :: ys => if x.date ≤ y.date then x :: y :: ys else y :: insertPost x ys

/-- `posts.sort_by_key(|post| post.date.clone())` from
`src/templates/index.rs`: a stable sort ascending by date, modelled as
stable insertion sort (stable sorts agree as functions). -/
def sortPostsByDate : List Post → List Post
  | [] => []
  | p :: ps => insertPost p (sortPostsByDate ps)

/-- The collection ordering step of `get_build_state` in
`src/templates/index.rs`: sort ascending by date, then reverse the whole
list (`posts.into_iter().rev().collect()`). -/
def listPosts (posts : List Post) : List Post :=
  (sortPostsByDate posts).reverse

/-- The `.iter().map(crate::data::get_post_for_path).collect()` step of
`get_build_state`: assemble every identifier in order; the first panic
aborts the whole build. -/
def assembleAll (f : String → Except Err Post) : List String → Except Err (List Post)
  | [] => Except.ok []
  | id :: rest =>
    match f id with
    | Except.error e => Except.error e
    | Except.ok p =>
      match assembleAll f rest with
      | Except.error e => Except.error e
      | Except.ok ps => Except.ok (p :: ps)

/-- `get_build_state` from `src/templates/index.rs`: enumerate the content
root, assemble every post, sort descending by date. -/
def getBuildState (yp : String → Option FrontMatter)
    (render : String → MdOptions → Option String)
    (fs : String → Option String) (listing : Option (List DirEntry)) :
    Except Err (List Post) :=
  match getBlogDirectories listing with
  | Except.error e => Except.error e
  | Except.ok ids =>
    match assembleAll (getPostForPath yp render fs) ids with
    | Except.error e => Except.error e
    | Except.ok posts => Except.ok (listPosts posts)

/-- Whether a pipeline result is a success. -/
def resultIsOk {α : Type} : Except Err α → Bool
  | Except.ok _ => true
  | Except.error _ => false

/-- Split a character list at every newline character. -/
def splitLinesChars : List Char → List (List Char)
  | [] => [[]]
  | c :: rest =>
    if c = '\n' then [] :: splitLinesChars rest
    else
      match splitLinesChars rest with
      | [] => [[c]]
      | l :: ls => (c :: l) :: ls

/-- The lines of a document, split on the newline character. -/
def docLines (s : String) : List String :=
  (splitLinesChars s.toList).map (fun l => String.mk l)

/-- Follows the wording of the specification for the front matter
delimiters: the document begins with an opening marker LINE consisting of
three hyphens (no leading content before it) and some later line is the
closing marker line. -/
def specWellDelimited (s : String) : Bool :=
  match docLines s with
  | [] => false
  | first :: later => first == "---" && later.contains "---"

/-- The delimiting condition the source actually checks: the document begins
with the three-character sequence of hyphens (`split_once` succeeds with an
empty part before the separator) and the remainder contains a second such
sequence.  Markers are substring occurrences, not lines. -/
def codeDelimited (s : String) : Bool :=
  match splitOnce s "---" with
  | some (pre, rest) => pre == "" && (splitOnce rest "---").isSome
  | none => false

/-- Fixture: a YAML decoder that always succeeds with a constant record. -/
def ypConst : String → Option FrontMatter :=
  fun _ => some { title := "T", date := 0, description := none, image := none }

/-- Fixture: a YAML decoder that always fails. -/
def ypNone : String → Option FrontMatter := fun _ => none

/-- Fixture: a renderer that echoes its input document. -/
def renderEcho : String → MdOptions → Option String := fun s _ => some s

/-- Fixture: a filesystem with one well-formed content file everywhere. -/
def fsConst : String → Option String := fun _ => some "---\nx\n---\nbody"

/-- Fixture: a filesystem on which every read fails. -/
def fsEmpty : String → Option String := fun _ => none

/-- Fixture: the post assembled from `fsConst` under `ypConst` and
`renderEcho` at identifier a. -/
def postSample : Post :=
  { title := "T", date := 0, description := none,
    html := "---\nx\n---\nbody", path := "a", image := none }

/-- Fixture posts with equal dates, distinguished by path. -/
def postA : Post :=
  { title := "A", date := 0, description := none, html := "", path := "a", image := none }

/-- Fixture post sharing the date of `postA`. -/
def postB : Post :=
  { title := "B", date := 0, description := none, html := "", path := "b", image := none }

/-- Fixture post with an early date. -/
def postC : Post :=
  { title := "C", date := 1, description := none, html := "", path := "c", image := none }

/-- Fixture post with a late date. -/
def postD : Post :=
  { title := "D", date := 2, description := none, html := "", path := "d", image := none }

/-- Every element of `insertPost x l` is `x` or an element of `l`. -/
theorem mem_insertPost {x a : Post} : ∀ {l : List Post}, a ∈ insertPost x l → a = x ∨ a ∈ l := by
  intro l
  induction l with
  | nil => intro h; simpa [insertPost] using h
  | cons y ys ih =>
    intro h
    by_cases hle : x.date ≤ y.date
    · simp only [insertPost, if_pos hle, List.mem_cons] at h
      rcases h with h | h | h
      · exact Or.inl h
      · exact Or.inr (by simp [h])
      · exact Or.inr (by simp [h])
    · simp only [insertPost, if_neg hle, List.mem_cons] at h
      rcases h with h | h
      · exact Or.inr (by simp [h])
      · rcases ih h with h2 | h2
        · exact Or.inl h2
        · exact Or.inr (List.mem_cons_of_mem _ h2)

/-- Inserting into a list that is ascending by date keeps it ascending. -/
theorem pairwise_insertPost (x : Post) : ∀ (l : List Post),
    l.Pairwise (fun p q => p.date ≤ q.date) →
    (insertPost x l).Pairwise (fun p q => p.date ≤ q.date) := by
  intro l
  induction l with
  | nil => intro _; simp [insertPost]
  | cons y ys ih =>
    intro h
    rw [List.pairwise_cons] at h
    obtain ⟨hy, hys⟩ := h
    by_cases hle : x.date ≤ y.date
    · simp only [insertPost, if_pos hle]
      refine List.Pairwise.cons ?_ (List.Pairwise.cons hy hys)
      intro z hz
      rcases List.mem_cons.mp hz with rfl | hz2
      · exact hle
      · exact le_trans hle (hy z hz2)
    · simp only [insertPost, if_neg hle]
      refine List.Pairwise.cons ?_ (ih hys)
      intro z hz
      rcases mem_insertPost hz with rfl | hz2
      · exact le_of_not_le hle
      · exact hy z hz2

/-- `insertPost` is a permutation of consing. -/
theorem perm_insertPost (x : Post) : ∀ (l : List Post), (insertPost x l).Perm (x :: l) := by
  intro l
  induction l with
  | nil => simp [insertPost]
  | cons y ys ih =>
    by_cases hle : x.date ≤ y.date
    · simp [insertPost, hle]
    · simp only [insertPost, if_neg hle]
      exact List.Perm.trans (List.Perm.cons y ih) (List.Perm.swap x y ys)

/-- The stable sort permutes its input. -/
theorem sortPostsByDate_perm : ∀ (l : List Post), (sortPostsByDate l).Perm l := by
  intro l
  induction l with
  | nil => simp [sortPostsByDate]
  | cons p ps ih =>
    exact List.Perm.trans (perm_insertPost p (sortPostsByDate ps)) (List.Perm.cons p ih)

/-- The stable sort produces a list ascending by date. -/
theorem sortPostsByDate_pairwise : ∀ (l : List Post),
    (sortPostsByDate l).Pairwise (fun p q => p.date ≤ q.date) := by
  intro l
  induction l with
  | nil => simp [sortPostsByDate]
  | cons p ps ih => exact pairwise_insertPost p (sortPostsByDate ps) ih

/-- Filtering an insertion by one date value: the inserted post lands in
front of every equal-date element, because every element it is placed behind
has a strictly smaller date. -/
theorem filter_insertPost (x : Post) (d : Int) : ∀ (l : List Post),
    (insertPost x l).filter (fun p => p.date == d) =
      if x.date = d then x :: l.filter (fun p => p.date == d)
      else l.filter (fun p => p.date == d) := by
  intro l
  induction l with
  | nil => by_cases hx : x.date = d <;> simp [insertPost, hx]
  | cons y ys ih =>
    by_cases hle : x.date ≤ y.date
    · by_cases hx : x.date = d
      · have hle2 : d ≤ y.date := hx ▸ hle
        simp [insertPost, hle, hle2, hx, List.filter_cons]
      · simp [insertPost, hle, hx, List.filter_cons]
    · have hlt : y.date < x.date := lt_of_not_le hle
      by_cases hx : x.date = d
      · have hy : ¬(y.date = d) := by omega
        have hle2 : ¬(d ≤ y.date) := by omega
        simp [insertPost, hle2, hx, hy, List.filter_cons, ih]
      · simp [insertPost, hle, hx, List.filter_cons, ih]

/-- Stability of the sort, expressed on date classes: restricting the sorted
list to the posts of any one date gives back the input restriction
unchanged. -/
theorem filter_sortPostsByDate (d : Int) : ∀ (l : List Post),
    (sortPostsByDate l).filter (fun p => p.date == d) = l.filter (fun p => p.date == d) := by
  intro l
  induction l with
  | nil => rfl
  | cons p ps ih =>
    by_cases hp : p.date = d <;>
      simp [sortPostsByDate, filter_insertPost, hp, List.filter_cons, ih]

/-- If any identifier in the list fails to assemble, the whole assembly
fails. -/
theorem assembleAll_fails (f : String → Except Err Post) :
    ∀ (ids : List String) (id : String) (e : Err), id ∈ ids → f id = Except.error e →
    resultIsOk (assembleAll f ids) = false := by
  intro ids
  induction ids with
  | nil => intro id e h; exact absurd h (List.not_mem_nil id)
  | cons x rest ih =>
    intro id e hmem hfail
    rcases List.mem_cons.mp hmem with rfl | hmem2
    · simp [assembleAll, hfail, resultIsOk]
    · cases hx : f x with
      | error e2 => simp [assembleAll, hx, resultIsOk]
      | ok p =>
        have hrest := ih id e hmem2 hfail
        cases ha : assembleAll f rest with
        | error e3 => simp [assembleAll, hx, ha, resultIsOk]
        | ok ps => rw [ha] at hrest; simp [resultIsOk] at hrest

/-- Characters kept by `takeWhile` satisfy the predicate. -/
theorem all_takeWhileChar (p : Char → Bool) : ∀ (l : List Char),
    ((l.takeWhile p).all p) = true := by
  intro l
  induction l with
  | nil => rfl
  | cons c rest ih => by_cases h : p c <;> simp [List.takeWhile_cons, h, ih]

/-- A successful anchored match captures a non-empty run of non-quote
characters. -/
theorem matchSrcAt_spec (l v : List Char) (h : matchSrcAt l = some v) :
    v ≠ [] ∧ v.all (fun c => c != '"') = true := by
  simp only [matchSrcAt] at h
  split at h
  · split at h
    · rename_i hcond
      have hv := Option.some.inj h
      subst hv
      refine ⟨?_, all_takeWhileChar _ _⟩
      intro hnil
      exact hcond.1 (by simp [hnil])
    · exact absurd h (by simp)
  · exact absurd h (by simp)

/-- A successful leftmost regex search captures a non-empty run of non-quote
characters. -/
theorem findFirstSrcAux_spec : ∀ (l v : List Char), findFirstSrcAux l = some v →
    v ≠ [] ∧ v.all (fun c => c != '"') = true := by
  intro l
  induction l with
  | nil => intro v h; exact absurd h (by simp [findFirstSrcAux])
  | cons c rest ih =>
    intro v h
    rw [findFirstSrcAux] at h
    cases hm : matchSrcAt (c :: rest) with
    | some w =>
      rw [hm] at h
      have hv := Option.some.inj h
      subst hv
      exact matchSrcAt_spec _ _ hm
    | none =>
      rw [hm] at h
      exact ih v h

/-- The names produced by a fully successful enumeration are exactly the
names of the directory-typed entries, in listing order. -/
theorem entriesToNames_good : ∀ (entries : List DirEntry),
    (∀ e ∈ entries, (DirEntry.fileType e).isSome = true) →
    (∀ e ∈ entries, e.fileType = some true → (DirEntry.name e).isSome = true) →
    entriesToNames entries =
      Except.ok ((entries.filter (fun e => e.fileType == some true)).filterMap DirEntry.name) := by
  intro entries
  induction entries with
  | nil => intro _ _; rfl
  | cons e rest ih =>
    intro hmeta hname
    have hm := hmeta e (by simp)
    obtain ⟨isDir, hft⟩ := Option.isSome_iff_exists.mp hm
    have ihgoal := ih (fun x hx => hmeta x (List.mem_cons_of_mem e hx))
      (fun x hx hd => hname x (List.mem_cons_of_mem e hx) hd)
    cases isDir with
    | true =>
      have hn := hname e (by simp) hft
      obtain ⟨n, hnn⟩ := Option.isSome_iff_exists.mp hn
      simp [entriesToNames, hft, hnn, ihgoal, List.filter_cons, List.filterMap_cons]
    | false =>
      simp [entriesToNames, hft, ihgoal, List.filter_cons]

/-- A directory-typed entry with a non-Unicode name makes the enumeration
abort with the name-conversion panic, provided every entry's metadata is
readable. -/
theorem entriesToNames_invalid_dir_name : ∀ (entries : List DirEntry) (e : DirEntry),
    (∀ x ∈ entries, (DirEntry.fileType x).isSome = true) →
    e ∈ entries → e.fileType = some true → e.name = none →
    entriesToNames entries = Except.error Err.invalidUnicodeName := by
  intro entries
  induction entries with
  | nil => intro e _ hmem; exact absurd hmem (List.not_mem_nil e)
  | cons x rest ih =>
    intro e hmeta hmem hdir hname
    rcases List.mem_cons.mp hmem with rfl | hmem2
    · simp [entriesToNames, hdir, hname]
    · have hm := hmeta x (by simp)
      obtain ⟨isDir, hft⟩ := Option.isSome_iff_exists.mp hm
      have ihgoal := ih e (fun y hy => hmeta y (List.mem_cons_of_mem x hy)) hmem2 hdir hname
      cases isDir with
      | true =>
        cases hn : x.name with
        | none => simp [entriesToNames, hft, hn]
        | some n => simp [entriesToNames, hft, hn, ihgoal]
      | false => simp [entriesToNames, hft, ihgoal]

/-- Claim C1: for every collection of two or more assembled posts whose dates
are pairwise distinct, the index build returns the posts in strictly
descending date order (most recent first). -/
theorem listPosts_strictDesc_of_nodupDates (posts : List Post)
    (hnd : (posts.map Post.date).Nodup) (_hlen : 2 ≤ posts.length) :
    (listPosts posts).Pairwise (fun p q => q.date < p.date) := by
  have hs := sortPostsByDate_pairwise posts
  have hperm := sortPostsByDate_perm posts
  have hnd2 : ((sortPostsByDate posts).map Post.date).Nodup :=
    ((hperm.map Post.date).nodup_iff).mpr hnd
  have hne : (sortPostsByDate posts).Pairwise (fun p q => p.date ≠ q.date) :=
    List.pairwise_map.mp hnd2
  have hlt : (sortPostsByDate posts).Pairwise (fun p q => p.date < q.date) :=
    (hs.and hne).imp (fun h => lt_of_le_of_ne h.1 h.2)
  exact List.pairwise_reverse.mpr hlt

/-- Witness for claim C1 at a concrete two-post collection with distinct
dates. -/
theorem listPosts_strictDesc_example :
    (([postC, postD] : List Post).map Post.date).Nodup ∧
    2 ≤ ([postC, postD] : List Post).length ∧
    (listPosts [postC, postD]).Pairwise (fun p q => q.date < p.date) :=
  ⟨by decide, by decide, listPosts_strictDesc_of_nodupDates [postC, postD] (by decide) (by decide)⟩

/-- Counterexample to claim C2: two distinct posts with equal dates come out
of the index build in the opposite of their discovery order, because the
stable ascending sort keeps them in discovery order and the final reversal
then swaps them. -/
theorem listPosts_equalDates_reversed_example :
    postA.date = postB.date ∧ postA ≠ postB ∧
    listPosts [postA, postB] = [postB, postA] :=
  ⟨rfl, by decide, by decide⟩

/-- Claim C2 as amended: among posts of any one (equal) date, the index build
returns the posts in REVERSE discovery order: restricting the output to one
date value yields the reversal of the input restricted to that date. -/
theorem listPosts_filter_date_reverse (posts : List Post) (d : Int) :
    (listPosts posts).filter (fun p => p.date == d) =
      (posts.filter (fun p => p.date == d)).reverse := by
  unfold listPosts
  rw [List.filter_reverse, filter_sortPostsByDate]

/-- Claim C3: whenever post assembly succeeds for an identifier, the `path`
field of the returned record equals that identifier. -/
theorem getPostForPath_path_eq (yp : String → Option FrontMatter)
    (render : String → MdOptions → Option String) (fs : String → Option String)
    (path : String) (p : Post)
    (h : getPostForPath yp render fs path = Except.ok p) : p.path = path := by
  unfold getPostForPath at h
  split at h
  · exact absurd h (by simp)
  · split at h
    · exact absurd h (by simp)
    · split at h
      · exact absurd h (by simp)
      · injection h with h2
        subst h2
        rfl

/-- Witness for claim C3 at a concrete successful assembly. -/
theorem getPostForPath_path_eq_example : postSample.path = "a" :=
  getPostForPath_path_eq ypConst renderEcho fsConst "a" postSample (by rfl)

/-- Claim C4: if any enumerated identifier fails to assemble, the whole
collection build fails; it never returns a (partial) list of posts. -/
theorem getBuildState_fails_of_assembly_failure (yp : String → Option FrontMatter)
    (render : String → MdOptions → Option String) (fs : String → Option String)
    (listing : Option (List DirEntry)) (ids : List String) (id : String) (e : Err)
    (hids : getBlogDirectories listing = Except.ok ids)
    (hmem : id ∈ ids)
    (hfail : getPostForPath yp render fs id = Except.error e) :
    resultIsOk (getBuildState yp render fs listing) = false := by
  unfold getBuildState
  rw [hids]
  have hassem := assembleAll_fails (getPostForPath yp render fs) ids id e hmem hfail
  cases ha : assembleAll (getPostForPath yp render fs) ids with
  | error e2 => simp [ha, resultIsOk]
  | ok ps => rw [ha] at hassem; simp [resultIsOk] at hassem

/-- Witness for claim C4: one enumerated directory whose content file cannot
be read makes the whole collection build fail. -/
theorem getBuildState_fails_example :
    resultIsOk (getBuildState ypConst renderEcho fsEmpty (some [⟨some "a", some true⟩])) = false :=
  getBuildState_fails_of_assembly_failure ypConst renderEcho fsEmpty
    (some [⟨some "a", some true⟩]) ["a"] "a" Err.contentFileUnreadable
    (by rfl) (by decide) (by rfl)

/-- Counterexample to claim C5: a document consisting of seven hyphens does
not begin with a marker LINE of three hyphens (its only line is seven
hyphens long), so by the claim the parser should fail with the missing
front matter error, yet the code accepts the delimiters (it matches plain
substring occurrences of three hyphens) and proceeds to the decode step. -/
theorem getFrontMatter_marker_line_counterexample :
    specWellDelimited "-------" = false ∧
    getFrontMatter ypNone "-------" ≠ Except.error Err.frontMatterMissing :=
  ⟨by decide, by decide⟩

/-- Claim C5 as amended: the parser fails with the missing front matter error
exactly when the document does not begin with the three-character hyphen
sequence or the remainder contains no second such sequence; markers are
substring occurrences, not lines.  Otherwise it decodes exactly the text
enclosed between the two occurrences. -/
theorem getFrontMatter_missing_iff (yp : String → Option FrontMatter) (s : String) :
    (getFrontMatter yp s = Except.error Err.frontMatterMissing ↔ codeDelimited s = false) ∧
    (∀ rest fmStr body, splitOnce s "---" = some ("", rest) →
      splitOnce rest "---" = some (fmStr, body) →
      getFrontMatter yp s = (yp fmStr).elim (Except.error Err.frontMatterMalformed) Except.ok) := by
  constructor
  · cases hsp : splitOnce s "---" with
    | none => simp [getFrontMatter, codeDelimited, hsp]
    | some pr =>
      obtain ⟨pre, rest⟩ := pr
      by_cases hpre : pre = ""
      · subst hpre
        cases hs2 : splitOnce rest "---" with
        | none => simp [getFrontMatter, codeDelimited, hsp, hs2]
        | some pr2 =>
          obtain ⟨fmStr, body⟩ := pr2
          cases hyp : yp fmStr with
          | some fm => simp [getFrontMatter, codeDelimited, hsp, hs2, hyp]
          | none => simp [getFrontMatter, codeDelimited, hsp, hs2, hyp]
      · simp [getFrontMatter, codeDelimited, hsp, hpre]
  · intro rest fmStr body h1 h2
    cases hyp : yp fmStr with
    | some fm => simp [getFrontMatter, h1, h2, hyp]
    | none => simp [getFrontMatter, h1, h2, hyp]

/-- Witness for the amended claim C5: a concrete document whose delimiters
are accepted substring-wise and whose enclosed text reaches the decoder. -/
theorem getFrontMatter_missing_iff_example :
    getFrontMatter ypNone "---a---b" = Except.error Err.frontMatterMalformed :=
  (getFrontMatter_missing_iff ypNone "---a---b").2 "a---b" "a" "b" (by decide) (by decide)

/-- Claim C6: the resolved image is the front matter image verbatim when one
is supplied, regardless of the html; otherwise the first capture of the
src-attribute pattern search over the rendered html; otherwise none. -/
theorem resolveImage_precedence :
    (∀ (html i : String), resolveImage (some i) html = some i) ∧
    (∀ html : String, resolveImage none html = findFirstSrc html) ∧
    resolveImage none "<img src=\"x.png\">" = some "x.png" ∧
    resolveImage none "<p>hello</p>" = none :=
  ⟨fun _ _ => rfl, fun _ => rfl, by decide, by decide⟩

/-- Claim C7: the `html` field of a successfully assembled post is the
rendering of the ENTIRE file contents (front matter block included, nothing
stripped), under options with the frontmatter construct enabled and raw
html passthrough allowed. -/
theorem getPostForPath_html_renders_full_contents (yp : String → Option FrontMatter)
    (render : String → MdOptions → Option String) (fs : String → Option String)
    (path contents : String) (p : Post)
    (hread : fs path = some contents)
    (h : getPostForPath yp render fs path = Except.ok p) :
    render contents usedMarkdownOptions = some p.html ∧
    usedMarkdownOptions.parse.constructs.frontmatter = true ∧
    usedMarkdownOptions.compile.allow_dangerous_html = true := by
  refine ⟨?_, rfl, rfl⟩
  unfold getPostForPath at h
  split at h
  · exact absurd h (by simp)
  · rename_i c1 hfs
    split at h
    · exact absurd h (by simp)
    · split at h
      · exact absurd h (by simp)
      · rename_i html hrender
        rw [hread] at hfs
        injection hfs with hc
        subst hc
        injection h with h2
        subst h2
        exact hrender

/-- Witness for claim C7 at a concrete successful assembly. -/
theorem getPostForPath_html_example :
    renderEcho "---\nx\n---\nbody" usedMarkdownOptions = some postSample.html ∧
    usedMarkdownOptions.parse.constructs.frontmatter = true ∧
    usedMarkdownOptions.compile.allow_dangerous_html = true :=
  getPostForPath_html_renders_full_contents ypConst renderEcho fsConst "a"
    "---\nx\n---\nbody" postSample (by rfl) (by rfl)

/-- Claim C8: on a fully readable content root the enumerator returns
exactly the names of the directory-typed entries, in listing order, with no
file entries included. -/
theorem getBlogDirectories_dirs_in_order (entries : List DirEntry)
    (hmeta : ∀ e ∈ entries, (DirEntry.fileType e).isSome = true)
    (hname : ∀ e ∈ entries, e.fileType = some true → (DirEntry.name e).isSome = true) :
    getBlogDirectories (some entries) =
      Except.ok ((entries.filter (fun e => e.fileType == some true)).filterMap DirEntry.name) :=
  entriesToNames_good entries hmeta hname

/-- Witness for claim C8: a listing with one directory and one file yields
exactly the directory name. -/
theorem getBlogDirectories_dirs_example :
    getBlogDirectories (some [⟨some "a", some true⟩, ⟨some "f.txt", some false⟩]) =
      Except.ok ["a"] :=
  getBlogDirectories_dirs_in_order
    [⟨some "a", some true⟩, ⟨some "f.txt", some false⟩] (by decide) (by decide)

/-- Counterexample to claim C9: an entry that is NOT a directory but has a
non-Unicode file name does not abort the enumeration; the entry is filtered
out by the directory test before its name is ever converted, and the
enumeration succeeds. -/
theorem getBlogDirectories_skips_invalid_file_name :
    DirEntry.name ⟨none, some false⟩ = none ∧
    getBlogDirectories (some [⟨none, some false⟩]) = Except.ok [] :=
  ⟨rfl, rfl⟩

/-- Claim C9 as amended: if every entry's metadata is readable and some entry
that IS a directory has a non-Unicode name, the whole enumeration aborts
with the name-conversion panic (so a successful enumeration only ever
contains names whose Unicode conversion succeeded); entries that are not
directories are skipped without any name conversion. -/
theorem getBlogDirectories_aborts_on_invalid_dir_name (entries : List DirEntry)
    (e : DirEntry)
    (hmeta : ∀ x ∈ entries, (DirEntry.fileType x).isSome = true)
    (hmem : e ∈ entries) (hdir : e.fileType = some true) (hname : e.name = none) :
    getBlogDirectories (some entries) = Except.error Err.invalidUnicodeName :=
  entriesToNames_invalid_dir_name entries e hmeta hmem hdir hname

/-- Witness for the amended claim C9 at a concrete one-entry listing. -/
theorem getBlogDirectories_aborts_example :
    getBlogDirectories (some [⟨none, some true⟩]) = Except.error Err.invalidUnicodeName :=
  getBlogDirectories_aborts_on_invalid_dir_name [⟨none, some true⟩] ⟨none, some true⟩
    (by decide) (by decide) rfl rfl

/-- Claim C10: without a front matter image, whenever the resolver returns a
value it is a non-empty string containing no double-quote character, so an
occurrence of the pattern with an empty quoted value is never chosen. -/
theorem resolveImage_sniffed_value_wellformed (html v : String)
    (h : resolveImage none html = some v) :
    v ≠ "" ∧ v.toList.all (fun c => c != '"') = true := by
  have h2 : findFirstSrc html = some v := h
  unfold findFirstSrc at h2
  obtain ⟨w, hw, hv⟩ := Option.map_eq_some'.mp h2
  obtain ⟨hne, hall⟩ := findFirstSrcAux_spec html.toList w hw
  subst hv
  constructor
  · intro hc
    have h3 : w = [] := congrArg String.data hc
    exact hne h3
  · exact hall

/-- Witness for claim C10: the empty src occurrence is skipped and the
captured value is non-empty and quote-free. -/
theorem resolveImage_sniffed_value_example :
    ("ok" : String) ≠ "" ∧ ("ok" : String).toList.all (fun c => c != '"') = true :=
  resolveImage_sniffed_value_wellformed "src=\"\" src=\"ok\"" "ok" (by decide)
